import Mathlib

/-!
Verification of the netdev network-tools server against its specification.

The definitions below are a shallow embedding of the TypeScript server code:
the in-memory storage (`MemStorage`), the tool-execution route handlers
(ping, port-scan, dns-lookup, subnet-calculate) in their two variants
(`registerRoutes` and `attachRoutes`), and the per-IP rate limiter of the
serverless entry point.  JavaScript numbers that only ever hold integers are
modelled as `Int`/`Nat`; parsed latencies (floats) as `ℚ`; `undefined`/`null`
as `Option`; JSON payload values as the inductive `JsVal`.
-/

namespace NetDev

/-- A JSON value as carried in request bodies and in the `jsonb` columns.
Only the scalar shapes are ever inspected by the handlers (truthiness and
`typeof` checks); nested values are carried opaquely. -/
inductive JsVal where
  | null
  | bool (b : Bool)
  | num (q : ℚ)
  | str (s : String)
  | arr (xs : List JsVal)
  | obj (fields : List (String × JsVal))

/-- JavaScript truthiness of a `JsVal` (`!v` is the negation of this).
`null`, `false`, `0` and `""` are falsy; arrays and objects are always
truthy. -/
def JsVal.truthy : JsVal → Bool
  | .null => false
  | .bool b => b
  | .num q => decide (q ≠ 0)
  | .str s => !s.isEmpty
  | .arr _ => true
  | .obj _ => true

/-- Whether a `JsVal` is a string (`typeof v === "string"`). -/
def JsVal.isStr : JsVal → Bool
  | .str _ => true
  | _ => false

/-! ## Subnet calculator (`POST /api/tools/subnet-calculate`)

Both route variants compute, for `maskBits = parseInt(subnetMask)` and
`subnetCount` subnets, `subnetSize = Math.pow(2, 32 - maskBits - 2)` and for
each `i < subnetCount` a row whose numeric last-octet values are
`networkStart = i * subnetSize`, `firstHost = networkStart + 1`,
`lastHost = networkStart + subnetSize - 2`,
`broadcast = networkStart + subnetSize - 1`, `hostCount = subnetSize - 2`. -/

/-- One row of the subnet table built by the subnet-calculate handler.  The
numeric fields are the last-octet numbers that the handler interpolates into
its result strings. -/
structure Subnet where
  subnetNumber : Nat
  networkStart : Int
  firstHost : Int
  lastHost : Int
  broadcast : Int
  hostCount : Int
deriving Repr, DecidableEq

/-- `Math.pow(2, 32 - maskBits - 2)`; an integer exactly when
`maskBits ≤ 30`, which is the domain on which this embedding is faithful. -/
def subnetSize (maskBits : Nat) : Int := 2 ^ (32 - maskBits - 2)

/-- The `i`-th subnet row pushed by the handler's loop. -/
def mkSubnet (maskBits : Nat) (i : Nat) : Subnet :=
  let s := subnetSize maskBits
  let networkStart : Int := i * s
  { subnetNumber := i + 1
    networkStart := networkStart
    firstHost := networkStart + 1
    lastHost := networkStart + s - 2
    broadcast := networkStart + s - 1
    hostCount := s - 2 }

/-- The full list of subnets returned by the handler
(`for (let i = 0; i < subnetCount; i++) subnets.push(...)`). -/
def calculateSubnets (maskBits : Nat) (subnetCount : Nat) : List Subnet :=
  (List.range subnetCount).map (mkSubnet maskBits)

/-- The numeric address interval `[networkStart, networkStart + subnetSize - 1]`
covered by a subnet row; its upper end is the row's `broadcast` address. -/
def inAddrRange (sub : Subnet) (x : Int) : Prop :=
  sub.networkStart ≤ x ∧ x ≤ sub.broadcast

/-! ## In-memory storage (`MemStorage`)

The JS `Map` is modelled as an association list in insertion order
(`Array.from(map.values())` yields insertion order); `map.set` replaces in
place when the key exists and appends otherwise; `map.delete` removes the
entry. -/

/-- A row of the `tool_results` table (`ToolResult` in `shared/schema.ts`).
`createdAt` is an epoch-milliseconds timestamp; the column is nullable. -/
structure ToolResult where
  id : String
  toolName : String
  userId : Option String
  parameters : Option JsVal
  results : Option JsVal
  status : String
  executionTime : Option Int
  createdAt : Option Nat

/-- The `toolResults` map of `MemStorage`. -/
abbrev ToolResultStore := List (String × ToolResult)

/-- `map.set(key, v)`: replace in place when present, append otherwise. -/
def setEntry {α : Type} (store : List (String × α)) (key : String) (v : α) :
    List (String × α) :=
  if store.any (fun p => p.1 == key)
  then store.map (fun p => if p.1 == key then (key, v) else p)
  else store ++ [(key, v)]

/-- `map.get(key)`. -/
def lookupEntry {α : Type} (store : List (String × α)) (key : String) : Option α :=
  (store.find? (fun p => p.1 == key)).map Prod.snd

/-- `map.delete(key)` (the resulting map). -/
def deleteEntry {α : Type} (store : List (String × α)) (key : String) :
    List (String × α) :=
  store.filter (fun p => p.1 != key)

/-- The sort key used by `getToolResults`:
`result.createdAt?.getTime() || 0`. -/
def sortKey (r : ToolResult) : Nat := r.createdAt.getD 0

/-- The descending-`createdAt` comparator `(a, b) => b.key - a.key` of
`getToolResults`, as the relation "a comes no later than b in the sorted
output". -/
def cmpCreatedDesc (a b : ToolResult) : Prop := sortKey b ≤ sortKey a

instance : DecidableRel cmpCreatedDesc := fun _ _ => Nat.decLe _ _

instance : IsTotal ToolResult cmpCreatedDesc :=
  ⟨fun a b => Nat.le_total (sortKey b) (sortKey a)⟩

instance : IsTrans ToolResult cmpCreatedDesc :=
  ⟨fun _ _ _ h1 h2 => Nat.le_trans h2 h1⟩

/-- JS truthiness of the optional numeric `limit` argument
(`undefined`, `0` and `NaN` are falsy). -/
def jsTruthyNum (v : Option Int) : Bool :=
  match v with
  | none => false
  | some n => decide (n ≠ 0)

/-- JS truthiness of the optional string `toolName` argument
(`undefined` and `""` are falsy). -/
def jsTruthyStr (v : Option String) : Bool :=
  match v with
  | none => false
  | some s => !s.isEmpty

/-- `array.slice(0, e)`: a nonnegative `e` keeps the first `e` elements, a
negative `e` keeps all but the last `-e`. -/
def jsSliceZeroTo {α : Type} (l : List α) (e : Int) : List α :=
  if 0 ≤ e then l.take e.toNat else l.take (l.length - (-e).toNat)

/-- The optional `toolName` filter of `getToolResults`
(`if (toolName) results = results.filter(r => r.toolName === toolName)`). -/
def filterByTool (toolName : Option String) (rs : List ToolResult) :
    List ToolResult :=
  if jsTruthyStr toolName
  then rs.filter (fun r => r.toolName == toolName.getD "")
  else rs

/-- `MemStorage.getToolResults(toolName?, limit?)`: linear scan of the map's
values, optional name filter, sort by descending `createdAt`, and
`slice(0, limit)` guarded by the truthiness of `limit`. -/
def getToolResults (toolName : Option String) (limit : Option Int)
    (store : ToolResultStore) : List ToolResult :=
  let results := store.map Prod.snd
  let results := filterByTool toolName results
  let results := List.insertionSort cmpCreatedDesc results
  if jsTruthyNum limit then jsSliceZeroTo results (limit.getD 0) else results

/-- `x || null` on an optional string field (`""` is falsy). -/
def jsOrNullStr (v : Option String) : Option String :=
  match v with
  | some s => if s.isEmpty then none else some s
  | none => none

/-- `x || null` on an optional JSON field (falsy values collapse to null). -/
def jsOrNullVal (v : Option JsVal) : Option JsVal :=
  match v with
  | some w => if w.truthy then some w else none
  | none => none

/-- `x || null` on an optional numeric field (`0` is falsy). -/
def jsOrNullInt (v : Option Int) : Option Int :=
  match v with
  | some n => if n = 0 then none else some n
  | none => none

/-- The `InsertToolResult` payload (the schema without `id`/`createdAt`). -/
structure InsertToolResult where
  toolName : String
  userId : Option String
  parameters : Option JsVal
  results : Option JsVal
  status : String
  executionTime : Option Int

/-- The `ToolResult` that `MemStorage.createToolResult` builds from an insert
payload, a fresh random id, and the current time. -/
def buildToolResult (now : Nat) (id : String) (ins : InsertToolResult) :
    ToolResult :=
  { id := id
    toolName := ins.toolName
    userId := jsOrNullStr ins.userId
    parameters := jsOrNullVal ins.parameters
    results := jsOrNullVal ins.results
    status := ins.status
    executionTime := jsOrNullInt ins.executionTime
    createdAt := some now }

/-- The tool-result operations of the `IStorage` interface.  The interface
exposes no update operation for tool results. -/
inductive StorageOp where
  | createToolResult (newId : String) (now : Nat) (ins : InsertToolResult)
  | listToolResults (toolName : Option String) (limit : Option Int)
  | getToolResult (id : String)
  | deleteToolResult (id : String)

/-- The effect of each tool-result storage operation on the `toolResults`
map (`getToolResults`/`getToolResult` are reads and leave it unchanged). -/
def storageStep (store : ToolResultStore) : StorageOp → ToolResultStore
  | .createToolResult newId now ins =>
      setEntry store newId (buildToolResult now newId ins)
  | .listToolResults _ _ => store
  | .getToolResult _ => store
  | .deleteToolResult id => deleteEntry store id

/-- A sample stored tool result, used by concrete witnesses. -/
def sampleResult (name : String) (t : Nat) : ToolResult :=
  { id := name
    toolName := name
    userId := none
    parameters := none
    results := none
    status := "completed"
    executionTime := none
    createdAt := some t }

/-- A sample three-entry result store, used by concrete witnesses. -/
def sampleStore : ToolResultStore :=
  [("a", sampleResult "ping" 5), ("b", sampleResult "ping" 9),
   ("c", sampleResult "dns" 7)]

/-! ## Port scanner (`POST /api/tools/port-scan`)

The real scan builds `ports = [startPort .. endPort]` and opens one TCP
socket per port (in bounded batches); a port is pushed onto `openPorts`
exactly when its socket connects before the 750ms timeout.  The socket
outcome is environment-determined, so it is modelled by an oracle
`isOpen : Int → Bool`; batching only affects completion order, which the
oracle-filter model abstracts (membership is unaffected). -/

/-- `Array.from({length: endPort - startPort + 1}, (_, i) => startPort + i)`. -/
def portsRange (startPort endPort : Int) : List Int :=
  (List.range (endPort - startPort + 1).toNat).map
    (fun i : Nat => startPort + (i : Int))

/-- The `openPorts` list collected by the real port-scan handler, given the
oracle of which attempted connections succeed. -/
def scanOpenPorts (isOpen : Int → Bool) (startPort endPort : Int) : List Int :=
  (portsRange startPort endPort).filter isOpen

/-- The `commonPorts` table of the mock port-scan handler. -/
def commonPorts : List Int :=
  [22, 23, 53, 80, 110, 143, 443, 993, 995, 3389, 8080, 8443]

/-- The mock port-scan handler's
`commonPorts.filter(p => p >= startPort && p <= endPort && Math.random() > 0.7)`,
with the randomness as an oracle. -/
def mockOpenPorts (rand : Int → Bool) (startPort endPort : Int) : List Int :=
  commonPorts.filter
    (fun p => decide (startPort ≤ p) && decide (p ≤ endPort) && rand p)

/-! ## Request validation in the tool handlers

Each handler either returns HTTP 400 (from its input checks, all of which
run before any import of `net`/`dns`/`child_process` is used) or goes on to
its network call.  `HandlerAction` records which of the two happens. -/

/-- What a handler does after its input checks: answer HTTP 400, or proceed
to its network call (subprocess spawn, socket connect, resolver call). -/
inductive HandlerAction where
  | reject400
  | networkCall
deriving DecidableEq, Repr

/-- The ping handler's only input check:
`if (!host || typeof host !== "string") return 400`. -/
def pingAction (host : Option JsVal) : HandlerAction :=
  match host with
  | none => .reject400
  | some v => if !v.truthy || !v.isStr then .reject400 else .networkCall

/-- The dns-lookup handler's only input check on the domain:
`if (!domain) return 400` (no `typeof` and no syntax check). -/
def dnsAction (domain : Option JsVal) : HandlerAction :=
  match domain with
  | none => .reject400
  | some v => if v.truthy then .networkCall else .reject400

/-- The `registerRoutes` port-scan range check (no span cap):
`startPort < 1 || endPort > 65535 || startPort > endPort`. -/
def portScanCheckRegister (startPort endPort : Int) : Bool :=
  decide (startPort < 1) || decide (65535 < endPort) || decide (endPort < startPort)

/-- The `attachRoutes` port-scan range check, which additionally caps the
span: `... || (endPort - startPort + 1) > maxRange` with `maxRange = 2000`. -/
def portScanCheckAttach (startPort endPort : Int) : Bool :=
  decide (startPort < 1) || decide (65535 < endPort) || decide (endPort < startPort)
    || decide (2000 < endPort - startPort + 1)

/-- The `registerRoutes` port-scan handler up to its first socket:
`if (!host) return 400`, then the range check, then the scan. -/
def portScanActionRegister (host : Option JsVal) (startPort endPort : Int) :
    HandlerAction :=
  match host with
  | none => .reject400
  | some v =>
      if !v.truthy then .reject400
      else if portScanCheckRegister startPort endPort then .reject400
      else .networkCall

/-- The `attachRoutes` port-scan handler up to its first socket. -/
def portScanActionAttach (host : Option JsVal) (startPort endPort : Int) :
    HandlerAction :=
  match host with
  | none => .reject400
  | some v =>
      if !v.truthy then .reject400
      else if portScanCheckAttach startPort endPort then .reject400
      else .networkCall

/-- Modelled from the spec: the specification demands that "invalid
domain/IP/port inputs" be rejected before any network call, but no handler
in the source checks host or domain syntax, so the spec's notion of a
syntactically valid host/domain string is modelled here as: nonempty and
consisting only of letters, digits, dots and hyphens. -/
def isPlausibleHost (s : String) : Bool :=
  !s.isEmpty && s.toList.all (fun c => c.isAlphanum || c == '.' || c == '-')

/-! ## Ping statistics

Both ping handlers parse the captured output lines, keep for each reply
line the optional `time=` value, and aggregate
`times = results.map(r => r.time || 0).filter(n => n > 0)` into the stored
statistics block. -/

/-- `Math.round` on the (nonnegative) values produced here: round half
toward positive infinity. -/
def jsRound (q : ℚ) : Int := ⌊q + 1 / 2⌋

/-- The `statistics` object stored by the ping handlers.  `avgTime` is
rounded to an integer; `minTime`/`maxTime` keep the parsed values. -/
structure PingStats where
  sent : Int
  received : Int
  lost : Int
  lossPercent : Int
  avgTime : Option Int
  minTime : Option ℚ
  maxTime : Option ℚ
deriving Repr, DecidableEq

/-- `results.map(r => r.time || 0).filter(n => n > 0)`: `parsed` holds the
optional `time` field of each parsed reply line. -/
def positiveTimes (parsed : List (Option ℚ)) : List ℚ :=
  (parsed.map (fun t => t.getD 0)).filter (fun n => decide (0 < n))

/-- The statistics block built by the ping handlers from the request's
`count` and the parsed reply lines. -/
def pingStatistics (count : Nat) (parsed : List (Option ℚ)) : PingStats :=
  { sent := count
    received := parsed.length
    lost := max 0 ((count : Int) - parsed.length)
    lossPercent :=
      max 0 (jsRound ((((count : ℚ) - (parsed.length : ℚ)) / (count : ℚ)) * 100))
    avgTime :=
      if (positiveTimes parsed).length = 0 then none
      else some (jsRound ((positiveTimes parsed).sum /
        ((positiveTimes parsed).length : ℚ)))
    minTime :=
      if (positiveTimes parsed).length = 0 then none
      else (positiveTimes parsed).min?
    maxTime :=
      if (positiveTimes parsed).length = 0 then none
      else (positiveTimes parsed).max? }

/-! ## Network events (`MemStorage.updateNetworkEvent`) -/

/-- A row of the `network_events` table. -/
structure NetworkEvent where
  id : String
  eventType : String
  severity : String
  message : String
  source : Option String
  metadata : Option JsVal
  resolved : Option Bool
  createdAt : Option Nat

/-- A partial insert payload: each field is present or absent, mirroring
the runtime shape of the update route's patch object (the schema omits
`id` and `createdAt`, so neither can appear in a patch). -/
structure NetworkEventPatch where
  eventType : Option String
  severity : Option String
  message : Option String
  source : Option (Option String)
  metadata : Option (Option JsVal)
  resolved : Option (Option Bool)

/-- The object spread in `updateNetworkEvent`: every field present in the
patch overwrites the existing value; `id` and `createdAt` cannot occur in a
patch and are kept. -/
def spreadPatch (e : NetworkEvent) (p : NetworkEventPatch) : NetworkEvent :=
  { id := e.id
    eventType := p.eventType.getD e.eventType
    severity := p.severity.getD e.severity
    message := p.message.getD e.message
    source := p.source.getD e.source
    metadata := p.metadata.getD e.metadata
    resolved := p.resolved.getD e.resolved
    createdAt := e.createdAt }

/-- The `networkEvents` map of `MemStorage`. -/
abbrev NetworkEventStore := List (String × NetworkEvent)

/-- `MemStorage.updateNetworkEvent(id, event)`: returns the updated event
and the new map, or `undefined` and the unchanged map when the id is
absent. -/
def updateNetworkEvent (id : String) (p : NetworkEventPatch)
    (store : NetworkEventStore) : Option NetworkEvent × NetworkEventStore :=
  match lookupEntry store id with
  | none => (none, store)
  | some e =>
      let updated := spreadPatch e p
      (some updated, setEntry store id updated)

/-- A sample stored network event, used by concrete witnesses. -/
def sampleEvent : NetworkEvent :=
  { id := "e1"
    eventType := "device_connected"
    severity := "info"
    message := "Device connected"
    source := some "network_monitor"
    metadata := none
    resolved := some false
    createdAt := some 3 }

/-- A sample one-entry event store, used by concrete witnesses. -/
def sampleEvents : NetworkEventStore := [("e1", sampleEvent)]

/-- A sample patch that only flips `resolved`, used by concrete witnesses. -/
def samplePatch : NetworkEventPatch :=
  { eventType := none
    severity := none
    message := none
    source := none
    metadata := none
    resolved := some (some true) }

/-! ## Per-IP rate limiter (serverless entry point)

The middleware keeps in `ipToHits` one bucket per IP holding a `count` and
a `windowStart`; on each request it resets the bucket when more than
`windowMs` elapsed since `windowStart`, increments `count`, and answers 429
when `count > maxReq`. -/

/-- The 60-second window length in milliseconds. -/
def windowMs : Int := 60000

/-- The per-window request budget. -/
def maxReq : Nat := 60

/-- One per-IP bucket of `ipToHits`. -/
structure Bucket where
  count : Nat
  windowStart : Int
deriving Repr, DecidableEq

/-- One pass of the middleware body for one IP's bucket at time `now`:
returns the stored bucket and whether the request passes (`count <= maxReq`
after the increment; otherwise the middleware answers 429 and does not call
`next()`). -/
def rlStep (b : Option Bucket) (now : Int) : Bucket × Bool :=
  let b0 := b.getD ⟨0, now⟩
  let b1 := if windowMs < now - b0.windowStart then (⟨0, now⟩ : Bucket) else b0
  let b2 : Bucket := ⟨b1.count + 1, b1.windowStart⟩
  (b2, decide (b2.count ≤ maxReq))

/-- Run one IP's bucket over that IP's request times, logging for each
request the window it was counted in (its `windowStart`) and whether it
passed. -/
def rlRun (b : Option Bucket) : List Int → List (Int × Bool)
  | [] => []
  | now :: rest =>
      ((rlStep b now).1.windowStart, (rlStep b now).2)
        :: rlRun (some (rlStep b now).1) rest

/-- The pass flags of the requests counted in the window that started at
`ws`, in request order. -/
def windowFlagsOf (l : List (Int × Bool)) (ws : Int) : List Bool :=
  (l.filter (fun p => p.1 == ws)).map Prod.snd

/-- The rate-limiter middleware over a full request trace (ip, time): each
request reads and writes only its own IP's bucket in `ipToHits`. -/
def rlMapRun (m : List (String × Bucket)) :
    List (String × Int) → List (String × Int × Bool)
  | [] => []
  | (ip, now) :: rest =>
      (ip, (rlStep (lookupEntry m ip) now).1.windowStart,
        (rlStep (lookupEntry m ip) now).2)
        :: rlMapRun (setEntry m ip (rlStep (lookupEntry m ip) now).1) rest

/-- The pass flags of the requests of `ip` counted in the window of `ip`'s
bucket that started at `ws`, in request order, over a full mixed trace. -/
def ipWindowFlags (reqs : List (String × Int)) (ip : String) (ws : Int) :
    List Bool :=
  windowFlagsOf (((rlMapRun [] reqs).filter (fun r => r.1 == ip)).map
    (fun r => r.2)) ws

/-- The expected pass pattern for a window whose bucket already counted `c`
requests: the `j`-th further request passes exactly when `c + 1 + j ≤ maxReq`
(so from a fresh window: the first `maxReq` pass, all later ones get 429). -/
def passPattern (c n : Nat) : List Bool :=
  (List.range n).map (fun j => decide (c + 1 + j ≤ maxReq))

theorem subnetSize_pos (maskBits : Nat) : 0 < subnetSize maskBits := by
  unfold subnetSize
  positivity

theorem subnet_ranges_ordered (maskBits : Nat) {i j : Nat} (hlt : i < j) (x : Int)
    (hi2 : x ≤ (mkSubnet maskBits i).broadcast)
    (hj1 : (mkSubnet maskBits j).networkStart ≤ x) : False := by
  have hspos : 0 < subnetSize maskBits := subnetSize_pos maskBits
  have hij' : (i : Int) + 1 ≤ (j : Int) := by exact_mod_cast hlt
  simp only [mkSubnet] at hi2 hj1
  have h3 : ((i : Int) + 1) * subnetSize maskBits ≤ (j : Int) * subnetSize maskBits :=
    mul_le_mul_of_nonneg_right hij' (le_of_lt hspos)
  have h4 : ((i : Int) + 1) * subnetSize maskBits
      = (i : Int) * subnetSize maskBits + subnetSize maskBits := by ring
  linarith

theorem mem_calculateSubnets (maskBits subnetCount : Nat) (sub : Subnet)
    (h : sub ∈ calculateSubnets maskBits subnetCount) :
    ∃ i, i < subnetCount ∧ sub = mkSubnet maskBits i := by
  unfold calculateSubnets at h
  obtain ⟨i, hi, rfl⟩ := List.mem_map.mp h
  exact ⟨i, List.mem_range.mp hi, rfl⟩

/-- C1: each subnet row returned by the subnet-calculate handler is internally
consistent (`lastHost = broadcast - 1`, `hostCount = subnetSize - 2`,
`networkStart = (subnetNumber - 1) * subnetSize`), and the numeric address
intervals of distinct subnets do not overlap. -/
theorem subnet_calculate_consistent_disjoint (maskBits subnetCount : Nat)
    (hm : maskBits ≤ 30) :
    (∀ sub ∈ calculateSubnets maskBits subnetCount,
        sub.lastHost = sub.broadcast - 1 ∧
        sub.hostCount = subnetSize maskBits - 2 ∧
        sub.networkStart = ((sub.subnetNumber : Int) - 1) * subnetSize maskBits) ∧
    (∀ i j : Nat, i < subnetCount → j < subnetCount → i ≠ j →
        ∀ x : Int,
          ¬ (inAddrRange (mkSubnet maskBits i) x ∧
             inAddrRange (mkSubnet maskBits j) x)) := by
  constructor
  · intro sub hsub
    obtain ⟨i, _, rfl⟩ := mem_calculateSubnets maskBits subnetCount sub hsub
    refine ⟨by simp [mkSubnet]; ring, by simp [mkSubnet], ?_⟩
    simp [mkSubnet]
  · intro i j _ _ hij x ⟨⟨hi1, hi2⟩, ⟨hj1, hj2⟩⟩
    rcases Nat.lt_or_ge i j with hlt | hge
    · exact subnet_ranges_ordered maskBits hlt x hi2 hj1
    · have hlt : j < i := Nat.lt_of_le_of_ne hge (fun h => hij h.symm)
      exact subnet_ranges_ordered maskBits hlt x hj2 hi1

/-- Witness for C1 at `maskBits = 24`, `subnetCount = 4`. -/
theorem subnet_calculate_consistent_disjoint_witness :
    (24 ≤ 30) ∧
    ((∀ sub ∈ calculateSubnets 24 4,
        sub.lastHost = sub.broadcast - 1 ∧
        sub.hostCount = subnetSize 24 - 2 ∧
        sub.networkStart = ((sub.subnetNumber : Int) - 1) * subnetSize 24) ∧
    (∀ i j : Nat, i < 4 → j < 4 → i ≠ j →
        ∀ x : Int,
          ¬ (inAddrRange (mkSubnet 24 i) x ∧ inAddrRange (mkSubnet 24 j) x))) :=
  ⟨by decide, subnet_calculate_consistent_disjoint 24 4 (by decide)⟩

theorem jsTruthyNum_pos {L : Int} (hL : 0 < L) : jsTruthyNum (some L) = true := by
  simp only [jsTruthyNum, decide_eq_true_eq]
  omega

theorem getToolResults_pos_limit_eq_take (toolName : Option String) (L : Int)
    (store : ToolResultStore) (hL : 0 < L) :
    getToolResults toolName (some L) store
      = (List.insertionSort cmpCreatedDesc
          (filterByTool toolName (store.map Prod.snd))).take L.toNat := by
  simp only [getToolResults, jsTruthyNum_pos hL, if_true, jsSliceZeroTo,
    Option.getD_some, if_pos hL.le]

/-- C2: with a positive limit `L`, `getToolResults(toolName?, L)` returns
exactly the `min(N', L)` most recently created results (`N'` the count after
the optional `toolName` filter), sorted in descending `createdAt` order: its
length is `min N' L`, it is sorted descending, and the remaining filtered
results all have sort keys no larger than every returned one. -/
theorem getToolResults_returns_most_recent (toolName : Option String) (L : Int)
    (store : ToolResultStore) (hL : 0 < L) :
    (getToolResults toolName (some L) store).length
        = min (filterByTool toolName (store.map Prod.snd)).length L.toNat ∧
    List.Sorted cmpCreatedDesc (getToolResults toolName (some L) store) ∧
    ∃ dropped : List ToolResult,
      (filterByTool toolName (store.map Prod.snd)).Perm
        (getToolResults toolName (some L) store ++ dropped) ∧
      ∀ x ∈ getToolResults toolName (some L) store, ∀ y ∈ dropped,
        sortKey y ≤ sortKey x := by
  have heq := getToolResults_pos_limit_eq_take toolName L store hL
  have hperm :
      (List.insertionSort cmpCreatedDesc
        (filterByTool toolName (store.map Prod.snd))).Perm
        (filterByTool toolName (store.map Prod.snd)) :=
    List.perm_insertionSort _ _
  have hsort :
      List.Sorted cmpCreatedDesc
        (List.insertionSort cmpCreatedDesc
          (filterByTool toolName (store.map Prod.snd))) :=
    List.sorted_insertionSort _ _
  refine ⟨?_, ?_, ?_⟩
  · rw [heq, List.length_take, hperm.length_eq]
    exact Nat.min_comm _ _
  · rw [heq]
    exact List.Pairwise.sublist (List.take_sublist _ _) hsort
  · refine ⟨(List.insertionSort cmpCreatedDesc
        (filterByTool toolName (store.map Prod.snd))).drop L.toNat, ?_, ?_⟩
    · rw [heq, List.take_append_drop]
      exact hperm.symm
    · intro x hx y hy
      rw [heq] at hx
      have h2 : List.Pairwise cmpCreatedDesc
          ((List.insertionSort cmpCreatedDesc
              (filterByTool toolName (store.map Prod.snd))).take L.toNat ++
           (List.insertionSort cmpCreatedDesc
              (filterByTool toolName (store.map Prod.snd))).drop L.toNat) := by
        rw [List.take_append_drop]
        exact hsort
      exact (List.pairwise_append.mp h2).2.2 x hx y hy

/-- Witness for C2 on a concrete three-entry store with limit 2. -/
theorem getToolResults_returns_most_recent_witness :
    ((0 : Int) < 2) ∧
    ((getToolResults none (some 2) sampleStore).length
        = min (filterByTool none (sampleStore.map Prod.snd)).length (2 : Int).toNat ∧
    List.Sorted cmpCreatedDesc (getToolResults none (some 2) sampleStore) ∧
    ∃ dropped : List ToolResult,
      (filterByTool none (sampleStore.map Prod.snd)).Perm
        (getToolResults none (some 2) sampleStore ++ dropped) ∧
      ∀ x ∈ getToolResults none (some 2) sampleStore, ∀ y ∈ dropped,
        sortKey y ≤ sortKey x) :=
  ⟨by norm_num, getToolResults_returns_most_recent none 2 sampleStore (by norm_num)⟩

/-- C9: a `limit` of `0` is falsy, so `getToolResults` ignores it: the call
behaves exactly like a call without a limit and returns the full filtered
list (its length is the filtered count), not an empty list. -/
theorem getToolResults_limit_zero_ignored (toolName : Option String)
    (store : ToolResultStore) :
    getToolResults toolName (some 0) store = getToolResults toolName none store ∧
    (getToolResults toolName (some 0) store).length
      = (filterByTool toolName (store.map Prod.snd)).length := by
  have h0 : jsTruthyNum (some 0) = false := by
    simp [jsTruthyNum]
  constructor
  · simp [getToolResults, h0, jsTruthyNum]
  · simp only [getToolResults, h0, Bool.false_eq_true, if_false]
    exact (List.perm_insertionSort _ _).length_eq

theorem lookupEntry_setEntry_of_fresh {α : Type} (store : List (String × α))
    (id newKey : String) (v : α) (tr : α)
    (hmem : lookupEntry store id = some tr)
    (hfresh : lookupEntry store newKey = none) :
    lookupEntry (setEntry store newKey v) id = some tr := by
  have hf : store.find? (fun p => p.1 == newKey) = none := by
    cases h : store.find? (fun p => p.1 == newKey) with
    | none => rfl
    | some p => rw [lookupEntry, h] at hfresh; simp at hfresh
  have hany : store.any (fun p => p.1 == newKey) = false := by
    rw [List.any_eq_false]
    intro p hp
    have := List.find?_eq_none.mp hf p hp
    simpa using this
  rw [setEntry, if_neg (by simp [hany])]
  obtain ⟨p, hp, hptr⟩ := Option.map_eq_some'.mp hmem
  rw [lookupEntry, List.find?_append, hp]
  simp [hptr]

theorem lookupEntry_deleteEntry_ne {α : Type} (store : List (String × α))
    (id did : String) (hne : did ≠ id) :
    lookupEntry (deleteEntry store did) id = lookupEntry store id := by
  induction store with
  | nil => rfl
  | cons hd tl ih =>
    rcases hd with ⟨k, v⟩
    by_cases hk : k = id
    · subst hk
      have h1 : (k != did) = true := by
        simp only [bne_iff_ne, ne_eq]
        exact fun h => hne h.symm
      simp [lookupEntry, deleteEntry, List.filter_cons, h1, List.find?_cons]
    · by_cases hd2 : k = did
      · subst hd2
        simp only [lookupEntry, deleteEntry, List.filter_cons, bne_self_eq_false,
          Bool.false_eq_true, if_false]
        rw [List.find?_cons_of_neg _ (by simpa using hk)]
        exact ih
      · have h1 : (k != did) = true := by simpa [bne_iff_ne] using hd2
        simp only [lookupEntry, deleteEntry, List.filter_cons, h1, if_true]
        rw [List.find?_cons_of_neg _ (by simpa using hk),
          List.find?_cons_of_neg _ (by simpa using hk)]
        exact ih

/-- C7: a stored `ToolResult` is unchanged by every subsequent tool-result
storage operation other than `deleteToolResult` of its own id — the
`IStorage` interface (modelled by `StorageOp`) has no update operation for
tool results, and create (with a fresh random id), list, and get leave
existing entries identical. -/
theorem toolResult_immutable (store : ToolResultStore) (op : StorageOp)
    (id : String) (tr : ToolResult)
    (hmem : lookupEntry store id = some tr)
    (hfresh : ∀ newId now ins, op = .createToolResult newId now ins →
        lookupEntry store newId = none)
    (hnotdel : ∀ did, op = .deleteToolResult did → did ≠ id) :
    lookupEntry (storageStep store op) id = some tr := by
  cases op with
  | createToolResult newId now ins =>
      exact lookupEntry_setEntry_of_fresh store id newId _ tr hmem
        (hfresh newId now ins rfl)
  | listToolResults tn l => exact hmem
  | getToolResult i => exact hmem
  | deleteToolResult did =>
      simp only [storageStep]
      rw [lookupEntry_deleteEntry_ne store id did (hnotdel did rfl)]
      exact hmem

/-- Witness for C7: a concrete entry survives a concrete list operation. -/
theorem toolResult_immutable_witness :
    (lookupEntry sampleStore "a" = some (sampleResult "ping" 5)) ∧
    lookupEntry (storageStep sampleStore (.listToolResults none none)) "a"
      = some (sampleResult "ping" 5) :=
  ⟨rfl, toolResult_immutable sampleStore (.listToolResults none none) "a"
    (sampleResult "ping" 5) rfl (fun _ _ _ h => nomatch h) (fun _ h => nomatch h)⟩

theorem mem_portsRange {startPort endPort p : Int}
    (h : p ∈ portsRange startPort endPort) : startPort ≤ p ∧ p ≤ endPort := by
  simp only [portsRange, List.mem_map, List.mem_range] at h
  obtain ⟨i, hi, rfl⟩ := h
  omega

/-- C3: every port reported open by either port-scan variant lies within the
requested range — the real scan only attempts (and can only push) ports from
`[startPort, endPort]`, and the mock variant filters `commonPorts` by the
range before the coin flip. -/
theorem port_scan_open_ports_in_range (isOpen rand : Int → Bool)
    (startPort endPort p : Int) :
    (p ∈ scanOpenPorts isOpen startPort endPort →
        startPort ≤ p ∧ p ≤ endPort) ∧
    (p ∈ mockOpenPorts rand startPort endPort →
        startPort ≤ p ∧ p ≤ endPort) := by
  constructor
  · intro h
    exact mem_portsRange (List.mem_of_mem_filter h)
  · intro h
    have := List.of_mem_filter h
    simp only [Bool.and_eq_true, decide_eq_true_eq] at this
    exact ⟨this.1.1, this.1.2⟩

/-- Witness for C3: port 22 reported by a concrete real scan and port 443 by
a concrete mock scan are both within their requested ranges. -/
theorem port_scan_open_ports_in_range_witness :
    (22 ∈ scanOpenPorts (fun q => q == 22) 20 100) ∧
    (443 ∈ mockOpenPorts (fun _ => true) 20 500) ∧
    ((20 : Int) ≤ 22 ∧ (22 : Int) ≤ 100) ∧
    ((20 : Int) ≤ 443 ∧ (443 : Int) ≤ 500) :=
  ⟨by decide, by decide,
    (port_scan_open_ports_in_range (fun q => q == 22) (fun _ => true)
      20 100 22).1 (by decide),
    (port_scan_open_ports_in_range (fun q => q == 22) (fun _ => true)
      20 500 443).2 (by decide)⟩

/-- C4 counterexample: a present, nonempty but syntactically invalid host
string is not rejected — both the ping and the dns-lookup handler proceed to
their network call on it, so an invalid-host request does not get HTTP 400
before a network call is attempted. -/
theorem validation_counterexample :
    pingAction (some (.str "@@@not a host@@@")) = .networkCall ∧
    isPlausibleHost "@@@not a host@@@" = false ∧
    dnsAction (some (.str "@@@not a host@@@")) = .networkCall ∧
    (∃ v, v = JsVal.str "@@@not a host@@@" ∧ v.truthy = true) := by
  refine ⟨rfl, by decide, rfl, ⟨_, rfl, by decide⟩⟩

/-- C4 amended: the handlers reject with HTTP 400 before any network call
exactly on presence/type failures and invalid port ranges — ping 400s iff
`host` is missing, falsy, or not a string; dns-lookup 400s iff `domain` is
falsy; the port-scan variants 400 iff `host` is falsy or the range check
fires — and on every other input (including syntactically invalid but
nonempty host/domain strings) they proceed to the network call. -/
theorem validation_presence_only :
    (∀ h, pingAction h = .reject400 ↔
        (h = none ∨ ∃ v, h = some v ∧ (v.truthy = false ∨ v.isStr = false))) ∧
    (∀ d, dnsAction d = .reject400 ↔
        (d = none ∨ ∃ v, d = some v ∧ v.truthy = false)) ∧
    (∀ h s e, portScanActionRegister h s e = .reject400 ↔
        (h = none ∨ (∃ v, h = some v ∧ v.truthy = false) ∨
          portScanCheckRegister s e = true)) ∧
    (∀ h s e, portScanActionAttach h s e = .reject400 ↔
        (h = none ∨ (∃ v, h = some v ∧ v.truthy = false) ∨
          portScanCheckAttach s e = true)) := by
  refine ⟨?_, ?_, ?_, ?_⟩
  · intro h
    cases h with
    | none => simp [pingAction]
    | some v =>
        simp only [pingAction, Option.some.injEq, reduceCtorEq, false_or]
        by_cases ht : v.truthy <;> by_cases hs : v.isStr <;>
          simp [ht, hs]
  · intro d
    cases d with
    | none => simp [dnsAction]
    | some v =>
        simp only [dnsAction, Option.some.injEq, reduceCtorEq, false_or]
        by_cases ht : v.truthy <;> simp [ht]
  · intro h s e
    cases h with
    | none => simp [portScanActionRegister]
    | some v =>
        simp only [portScanActionRegister, Option.some.injEq, reduceCtorEq,
          false_or]
        by_cases ht : v.truthy <;>
          by_cases hr : portScanCheckRegister s e <;> simp [ht, hr]
  · intro h s e
    cases h with
    | none => simp [portScanActionAttach]
    | some v =>
        simp only [portScanActionAttach, Option.some.injEq, reduceCtorEq,
          false_or]
        by_cases ht : v.truthy <;>
          by_cases hr : portScanCheckAttach s e <;> simp [ht, hr]

/-- C5 counterexample: the `registerRoutes` port-scan handler has no span
cap — the full 1..65535 range (span 65535, far above the 2000 cap of the
other variant) passes validation and the handler proceeds to open sockets. -/
theorem port_scan_no_span_cap_counterexample :
    portScanActionRegister (some (.str "example.com")) 1 65535
      = .networkCall ∧
    (2000 : Int) < 65535 - 1 + 1 := by
  exact ⟨rfl, by decide⟩

/-- C5 amended: both port-scan variants reject invalid ranges with HTTP 400
before any socket is opened, so every accepted scan has a validated range;
but only the `attachRoutes` (serverless) variant caps the span at 2000
ports — the `registerRoutes` variant accepts any valid range, however
large. -/
theorem port_scan_range_validation_amended :
    (∀ h s e, portScanActionAttach h s e = .networkCall →
        1 ≤ s ∧ e ≤ 65535 ∧ s ≤ e ∧ e - s + 1 ≤ 2000) ∧
    (∀ h s e, portScanActionRegister h s e = .networkCall →
        1 ≤ s ∧ e ≤ 65535 ∧ s ≤ e) ∧
    (∀ s e, portScanCheckRegister s e = false ↔ (1 ≤ s ∧ e ≤ 65535 ∧ s ≤ e)) := by
  have hreg : ∀ s e : Int,
      portScanCheckRegister s e = false ↔ (1 ≤ s ∧ e ≤ 65535 ∧ s ≤ e) := by
    intro s e
    simp only [portScanCheckRegister, Bool.or_eq_false_iff,
      decide_eq_false_iff_not, not_lt]
    omega
  have hatt : ∀ s e : Int,
      portScanCheckAttach s e = false ↔
        (1 ≤ s ∧ e ≤ 65535 ∧ s ≤ e ∧ e - s + 1 ≤ 2000) := by
    intro s e
    simp only [portScanCheckAttach, Bool.or_eq_false_iff,
      decide_eq_false_iff_not, not_lt]
    omega
  refine ⟨?_, ?_, hreg⟩
  · intro h s e hact
    cases h with
    | none => simp [portScanActionAttach] at hact
    | some v =>
        simp only [portScanActionAttach] at hact
        by_cases ht : v.truthy
        · by_cases hr : portScanCheckAttach s e
          · simp [ht, hr] at hact
          · exact (hatt s e).mp (by simpa using hr)
        · simp [ht] at hact
  · intro h s e hact
    cases h with
    | none => simp [portScanActionRegister] at hact
    | some v =>
        simp only [portScanActionRegister] at hact
        by_cases ht : v.truthy
        · by_cases hr : portScanCheckRegister s e
          · simp [ht, hr] at hact
          · exact (hreg s e).mp (by simpa using hr)
        · simp [ht] at hact

/-- Witness for the amended C5: a concrete accepted scan in each variant has
a validated range, and in the serverless variant a capped span. -/
theorem port_scan_range_validation_amended_witness :
    (portScanActionAttach (some (.str "example.com")) 10 20 = .networkCall) ∧
    ((1 : Int) ≤ 10 ∧ (20 : Int) ≤ 65535 ∧ (10 : Int) ≤ 20 ∧
      (20 : Int) - 10 + 1 ≤ 2000) ∧
    ((1 : Int) ≤ 10 ∧ (20 : Int) ≤ 65535 ∧ (10 : Int) ≤ 20) :=
  ⟨rfl,
    port_scan_range_validation_amended.1 (some (.str "example.com")) 10 20 rfl,
    port_scan_range_validation_amended.2.1 (some (.str "example.com")) 10 20 rfl⟩

/-- C6: the stored ping statistics satisfy `lost = max(0, c - r)`,
`lossPercent = max(0, round(100 * (c - r) / c))`, `avgTime = round(mean of
the positive parsed times)`, `minTime`/`maxTime` the minimum/maximum of the
positive parsed times, and `avgTime`/`minTime`/`maxTime` are null when no
positive time was parsed. -/
theorem ping_statistics_spec (count : Nat) (parsed : List (Option ℚ))
    (hc : 0 < count) :
    (pingStatistics count parsed).sent = count ∧
    (pingStatistics count parsed).received = parsed.length ∧
    (pingStatistics count parsed).lost
      = max 0 ((count : Int) - parsed.length) ∧
    (pingStatistics count parsed).lossPercent
      = max 0 (jsRound
          (100 * (((count : ℚ) - (parsed.length : ℚ)) / (count : ℚ)))) ∧
    (positiveTimes parsed = [] →
      (pingStatistics count parsed).avgTime = none ∧
      (pingStatistics count parsed).minTime = none ∧
      (pingStatistics count parsed).maxTime = none) ∧
    (positiveTimes parsed ≠ [] →
      (pingStatistics count parsed).avgTime
        = some (jsRound ((positiveTimes parsed).sum /
            ((positiveTimes parsed).length : ℚ))) ∧
      (∃ m, (pingStatistics count parsed).minTime = some m ∧
        m ∈ positiveTimes parsed ∧ ∀ t ∈ positiveTimes parsed, m ≤ t) ∧
      (∃ M, (pingStatistics count parsed).maxTime = some M ∧
        M ∈ positiveTimes parsed ∧ ∀ t ∈ positiveTimes parsed, t ≤ M)) := by
  refine ⟨rfl, rfl, rfl, ?_, ?_, ?_⟩
  · show max 0 (jsRound ((((count : ℚ) - (parsed.length : ℚ)) / (count : ℚ))
        * 100)) = _
    rw [mul_comm]
  · intro h0
    simp [pingStatistics, h0]
  · intro hne
    have hlen : (positiveTimes parsed).length ≠ 0 := by
      simpa [List.length_eq_zero] using hne
    refine ⟨by simp [pingStatistics, hlen], ?_, ?_⟩
    · have hmin : (positiveTimes parsed).min?.isSome := by
        cases h : (positiveTimes parsed).min? with
        | none => exact absurd (List.min?_eq_none_iff.mp h) hne
        | some m => rfl
      obtain ⟨m, hm⟩ := Option.isSome_iff_exists.mp hmin
      refine ⟨m, by simp [pingStatistics, hlen, hm], ?_, ?_⟩
      · exact List.min?_mem (fun a b => min_choice a b) hm
      · exact ((List.le_min?_iff (fun a b c => le_min_iff) hm).mp le_rfl)
    · have hmax : (positiveTimes parsed).max?.isSome := by
        cases h : (positiveTimes parsed).max? with
        | none => exact absurd (List.max?_eq_none_iff.mp h) hne
        | some M => rfl
      obtain ⟨M, hM⟩ := Option.isSome_iff_exists.mp hmax
      refine ⟨M, by simp [pingStatistics, hlen, hM], ?_, ?_⟩
      · exact List.max?_mem (fun a b => max_choice a b) hM
      · exact ((List.max?_le_iff (fun a b c => max_le_iff) hM).mp le_rfl)

/-- Witness for C6 at `count = 4` with three parsed lines, two of which have
positive times. -/
theorem ping_statistics_spec_witness :
    (0 < 4) ∧
    ((pingStatistics 4 [some 10, some 20, none]).sent = 4 ∧
    (pingStatistics 4 [some 10, some 20, none]).received
      = ([some 10, some 20, none] : List (Option ℚ)).length ∧
    (pingStatistics 4 [some 10, some 20, none]).lost
      = max 0 ((4 : Int) - ([some 10, some 20, none] : List (Option ℚ)).length) ∧
    (pingStatistics 4 [some 10, some 20, none]).lossPercent
      = max 0 (jsRound (100 * (((4 : ℚ) -
          (([some 10, some 20, none] : List (Option ℚ)).length : ℚ)) / (4 : ℚ)))) ∧
    (positiveTimes [some 10, some 20, none] = [] →
      (pingStatistics 4 [some 10, some 20, none]).avgTime = none ∧
      (pingStatistics 4 [some 10, some 20, none]).minTime = none ∧
      (pingStatistics 4 [some 10, some 20, none]).maxTime = none) ∧
    (positiveTimes [some 10, some 20, none] ≠ [] →
      (pingStatistics 4 [some 10, some 20, none]).avgTime
        = some (jsRound ((positiveTimes [some 10, some 20, none]).sum /
            ((positiveTimes [some 10, some 20, none]).length : ℚ))) ∧
      (∃ m, (pingStatistics 4 [some 10, some 20, none]).minTime = some m ∧
        m ∈ positiveTimes [some 10, some 20, none] ∧
        ∀ t ∈ positiveTimes [some 10, some 20, none], m ≤ t) ∧
      (∃ M, (pingStatistics 4 [some 10, some 20, none]).maxTime = some M ∧
        M ∈ positiveTimes [some 10, some 20, none] ∧
        ∀ t ∈ positiveTimes [some 10, some 20, none], t ≤ M))) :=
  ⟨by decide, ping_statistics_spec 4 [some 10, some 20, none] (by decide)⟩

theorem find?_map_replace {α : Type} (key : String) (v : α) :
    ∀ store : List (String × α), store.any (fun p => p.1 == key) = true →
    lookupEntry (store.map (fun p => if p.1 == key then (key, v) else p)) key
      = some v := by
  intro store
  induction store with
  | nil => intro h; simp at h
  | cons hd tl ih =>
    intro hany
    rcases hd with ⟨k, w⟩
    rw [List.map_cons]
    by_cases hk : k = key
    · subst hk
      have hhead : (if ((k, w).1 == k) = true then (k, v) else (k, w)) = (k, v) := by
        simp
      rw [hhead]
      unfold lookupEntry
      rw [List.find?_cons_of_pos _ (by simp)]
      rfl
    · have hk' : (k == key) = false := by simp [hk]
      have hhead : (if ((k, w).1 == key) = true then (key, v) else (k, w))
          = (k, w) := by
        simp [hk']
      rw [hhead]
      have hany' : tl.any (fun p => p.1 == key) = true := by
        simpa [List.any_cons, hk'] using hany
      unfold lookupEntry
      rw [List.find?_cons_of_neg _ (by simp [hk'])]
      exact ih hany'

theorem lookupEntry_setEntry_self {α : Type} (store : List (String × α))
    (key : String) (v : α) :
    lookupEntry (setEntry store key v) key = some v := by
  unfold setEntry
  by_cases hany : store.any (fun p => p.1 == key) = true
  · rw [if_pos hany]
    exact find?_map_replace key v store hany
  · rw [if_neg hany]
    have hf : store.find? (fun p => p.1 == key) = none := by
      rw [List.find?_eq_none]
      intro p hp
      intro hpk
      exact hany (List.any_eq_true.mpr ⟨p, hp, hpk⟩)
    rw [lookupEntry, List.find?_append, hf]
    simp [List.find?_cons]

theorem lookupEntry_setEntry_ne {α : Type} (store : List (String × α))
    (key id2 : String) (v : α) (hne : id2 ≠ key) :
    lookupEntry (setEntry store key v) id2 = lookupEntry store id2 := by
  have hne' : (key == id2) = false := by simp [Ne.symm hne]
  unfold setEntry
  by_cases hany : store.any (fun p => p.1 == key) = true
  · rw [if_pos hany]
    clear hany
    induction store with
    | nil => rfl
    | cons hd tl ih =>
      rcases hd with ⟨k, w⟩
      rw [List.map_cons]
      by_cases hk : k = key
      · subst hk
        have hhead : (if ((k, w).1 == k) = true then (k, v) else (k, w))
            = (k, v) := by simp
        rw [hhead]
        unfold lookupEntry
        rw [List.find?_cons_of_neg _ (by simp [hne']),
          List.find?_cons_of_neg _ (by simpa using hne')]
        exact ih
      · have hk' : (k == key) = false := by simp [hk]
        have hhead : (if ((k, w).1 == key) = true then (key, v) else (k, w))
            = (k, w) := by simp [hk']
        rw [hhead]
        by_cases hki : k = id2
        · subst hki
          unfold lookupEntry
          rw [List.find?_cons_of_pos _ (by simp),
            List.find?_cons_of_pos _ (by simp)]
        · have hki' : (k == id2) = false := by simp [hki]
          unfold lookupEntry
          rw [List.find?_cons_of_neg _ (by simp [hki']),
            List.find?_cons_of_neg _ (by simp [hki'])]
          exact ih
  · rw [if_neg hany]
    unfold lookupEntry
    rw [List.find?_append]
    have h2 : List.find? (fun p => p.1 == id2) [(key, v)] = none := by
      simp [List.find?_cons, hne']
    rw [h2]
    cases store.find? (fun p => p.1 == id2) <;> rfl

/-- C8: when an event with the given id exists, `updateNetworkEvent` returns
and stores exactly the existing event overwritten at the fields present in
the patch, with `id` and `createdAt` unchanged and all other stored events
untouched; when no such event exists it returns `undefined` and leaves the
store unchanged. -/
theorem updateNetworkEvent_spec (store : NetworkEventStore) (id : String)
    (p : NetworkEventPatch) :
    (∀ e, lookupEntry store id = some e →
        (updateNetworkEvent id p store).1 = some (spreadPatch e p) ∧
        lookupEntry (updateNetworkEvent id p store).2 id
          = some (spreadPatch e p) ∧
        (spreadPatch e p).id = e.id ∧
        (spreadPatch e p).createdAt = e.createdAt ∧
        (spreadPatch e p).eventType = p.eventType.getD e.eventType ∧
        (spreadPatch e p).severity = p.severity.getD e.severity ∧
        (spreadPatch e p).message = p.message.getD e.message ∧
        (spreadPatch e p).source = p.source.getD e.source ∧
        (spreadPatch e p).metadata = p.metadata.getD e.metadata ∧
        (spreadPatch e p).resolved = p.resolved.getD e.resolved ∧
        (∀ id2, id2 ≠ id →
          lookupEntry (updateNetworkEvent id p store).2 id2
            = lookupEntry store id2)) ∧
    (lookupEntry store id = none →
        updateNetworkEvent id p store = (none, store)) := by
  constructor
  · intro e he
    refine ⟨?_, ?_, rfl, rfl, rfl, rfl, rfl, rfl, rfl, rfl, ?_⟩
    · simp [updateNetworkEvent, he]
    · simp only [updateNetworkEvent, he]
      exact lookupEntry_setEntry_self store id (spreadPatch e p)
    · intro id2 hne
      simp only [updateNetworkEvent, he]
      exact lookupEntry_setEntry_ne store id id2 (spreadPatch e p) hne
  · intro he
    simp [updateNetworkEvent, he]

/-- Witness for C8: updating a concrete one-event store through a patch that
only sets `resolved`. -/
theorem updateNetworkEvent_spec_witness :
    (lookupEntry sampleEvents "e1" = some sampleEvent) ∧
    ((updateNetworkEvent "e1" samplePatch sampleEvents).1
        = some (spreadPatch sampleEvent samplePatch) ∧
    lookupEntry (updateNetworkEvent "e1" samplePatch sampleEvents).2 "e1"
        = some (spreadPatch sampleEvent samplePatch) ∧
    (spreadPatch sampleEvent samplePatch).id = sampleEvent.id ∧
    (spreadPatch sampleEvent samplePatch).createdAt = sampleEvent.createdAt ∧
    (spreadPatch sampleEvent samplePatch).eventType
        = samplePatch.eventType.getD sampleEvent.eventType ∧
    (spreadPatch sampleEvent samplePatch).severity
        = samplePatch.severity.getD sampleEvent.severity ∧
    (spreadPatch sampleEvent samplePatch).message
        = samplePatch.message.getD sampleEvent.message ∧
    (spreadPatch sampleEvent samplePatch).source
        = samplePatch.source.getD sampleEvent.source ∧
    (spreadPatch sampleEvent samplePatch).metadata
        = samplePatch.metadata.getD sampleEvent.metadata ∧
    (spreadPatch sampleEvent samplePatch).resolved
        = samplePatch.resolved.getD sampleEvent.resolved ∧
    (∀ id2, id2 ≠ "e1" →
      lookupEntry (updateNetworkEvent "e1" samplePatch sampleEvents).2 id2
        = lookupEntry sampleEvents id2)) :=
  ⟨rfl, (updateNetworkEvent_spec sampleEvents "e1" samplePatch).1 sampleEvent rfl⟩

theorem rlStep_some_reset (c : Nat) (w now : Int) (h : windowMs < now - w) :
    rlStep (some ⟨c, w⟩) now = (⟨1, now⟩, decide (1 ≤ maxReq)) := by
  simp [rlStep, h]

theorem rlStep_some_stay (c : Nat) (w now : Int) (h : ¬ windowMs < now - w) :
    rlStep (some ⟨c, w⟩) now = (⟨c + 1, w⟩, decide (c + 1 ≤ maxReq)) := by
  simp [rlStep, h]

theorem rlRun_cons_reset (c : Nat) (w now : Int) (rest : List Int)
    (h : windowMs < now - w) :
    rlRun (some ⟨c, w⟩) (now :: rest)
      = (now, decide (1 ≤ maxReq)) :: rlRun (some ⟨1, now⟩) rest := by
  rw [rlRun, rlStep_some_reset c w now h]

theorem rlRun_cons_stay (c : Nat) (w now : Int) (rest : List Int)
    (h : ¬ windowMs < now - w) :
    rlRun (some ⟨c, w⟩) (now :: rest)
      = (w, decide (c + 1 ≤ maxReq)) :: rlRun (some ⟨c + 1, w⟩) rest := by
  rw [rlRun, rlStep_some_stay c w now h]

theorem rlStep_none (now : Int) :
    rlStep none now = (⟨1, now⟩, decide (1 ≤ maxReq)) := by
  norm_num [rlStep, windowMs]

theorem rlRun_cons_none (now : Int) (rest : List Int) :
    rlRun none (now :: rest)
      = (now, decide (1 ≤ maxReq)) :: rlRun (some ⟨1, now⟩) rest := by
  rw [rlRun, rlStep_none now]

theorem rlRun_windowStart_ge :
    ∀ (ts : List Int) (c : Nat) (w : Int),
      List.Sorted (· ≤ ·) ts → (∀ t ∈ ts, w ≤ t) →
      ∀ q ∈ rlRun (some ⟨c, w⟩) ts, w ≤ q.1 := by
  intro ts
  induction ts with
  | nil =>
    intro c w _ _ q hq
    simp [rlRun] at hq
  | cons now rest ih =>
    intro c w hsort hw q hq
    obtain ⟨hnowle, hsort'⟩ := List.sorted_cons.mp hsort
    have hwnow : w ≤ now := hw now (List.mem_cons_self _ _)
    by_cases hreset : windowMs < now - w
    · rw [rlRun_cons_reset c w now rest hreset] at hq
      rcases List.mem_cons.mp hq with hq | hq
      · rw [hq]; exact hwnow
      · exact le_trans hwnow (ih 1 now hsort' hnowle q hq)
    · rw [rlRun_cons_stay c w now rest hreset] at hq
      rcases List.mem_cons.mp hq with hq | hq
      · rw [hq]
      · exact ih (c + 1) w hsort'
          (fun t ht => hw t (List.mem_cons_of_mem _ ht)) q hq

theorem windowFlagsOf_nil (ws : Int) : windowFlagsOf [] ws = [] := rfl

theorem windowFlagsOf_cons_pos (x : Int × Bool) (l : List (Int × Bool))
    (ws : Int) (h : x.1 = ws) :
    windowFlagsOf (x :: l) ws = x.2 :: windowFlagsOf l ws := by
  simp [windowFlagsOf, List.filter_cons, h]

theorem windowFlagsOf_cons_neg (x : Int × Bool) (l : List (Int × Bool))
    (ws : Int) (h : x.1 ≠ ws) :
    windowFlagsOf (x :: l) ws = windowFlagsOf l ws := by
  simp [windowFlagsOf, List.filter_cons, h]

theorem windowFlagsOf_eq_nil_of_forall {l : List (Int × Bool)} {ws : Int}
    (h : ∀ q ∈ l, q.1 ≠ ws) : windowFlagsOf l ws = [] := by
  unfold windowFlagsOf
  rw [List.filter_eq_nil_iff.mpr]
  · rfl
  · intro q hq
    simpa using h q hq

theorem passPattern_succ (c n : Nat) :
    passPattern c (n + 1) = decide (c + 1 ≤ maxReq) :: passPattern (c + 1) n := by
  unfold passPattern
  rw [List.range_succ_eq_map, List.map_cons, List.map_map]
  refine congrArg₂ _ (by norm_num) ?_
  apply List.map_congr_left
  intro j _
  simp only [Function.comp_apply]
  exact decide_eq_decide.mpr (by omega)

theorem rlRun_flags_in_window :
    ∀ (ts : List Int) (c : Nat) (ws : Int),
      List.Sorted (· ≤ ·) ts → (∀ t ∈ ts, ws ≤ t) →
      ∃ n, windowFlagsOf (rlRun (some ⟨c, ws⟩) ts) ws = passPattern c n := by
  intro ts
  induction ts with
  | nil => intro c ws _ _; exact ⟨0, rfl⟩
  | cons now rest ih =>
    intro c ws hsort hw
    obtain ⟨hnowle, hsort'⟩ := List.sorted_cons.mp hsort
    by_cases hreset : windowMs < now - ws
    · rw [rlRun_cons_reset c ws now rest hreset]
      have hnow_ne : now ≠ ws := by
        unfold windowMs at hreset
        omega
      rw [windowFlagsOf_cons_neg _ _ _ (by simpa using hnow_ne)]
      have hempty : windowFlagsOf (rlRun (some ⟨1, now⟩) rest) ws = [] := by
        apply windowFlagsOf_eq_nil_of_forall
        intro q hq
        have hge : now ≤ q.1 := rlRun_windowStart_ge rest 1 now hsort' hnowle q hq
        intro hq1
        rw [hq1] at hge
        unfold windowMs at hreset
        omega
      rw [hempty]
      exact ⟨0, rfl⟩
    · rw [rlRun_cons_stay c ws now rest hreset]
      rw [windowFlagsOf_cons_pos _ _ _ rfl]
      obtain ⟨n, hn⟩ :=
        ih (c + 1) ws hsort' (fun t ht => hw t (List.mem_cons_of_mem _ ht))
      rw [hn]
      exact ⟨n + 1, (passPattern_succ c n).symm⟩

theorem rlRun_flags_general :
    ∀ (ts : List Int) (b : Option Bucket) (ws : Int),
      List.Sorted (· ≤ ·) ts →
      (∀ cb wb, b = some ⟨cb, wb⟩ → wb ≠ ws ∧ ∀ t ∈ ts, wb ≤ t) →
      ∃ n, windowFlagsOf (rlRun b ts) ws = passPattern 0 n := by
  intro ts
  induction ts with
  | nil =>
    intro b ws _ _
    refine ⟨0, ?_⟩
    cases b <;> rfl
  | cons now rest ih =>
    intro b ws hsort hb
    obtain ⟨hnowle, hsort'⟩ := List.sorted_cons.mp hsort
    have hfresh : ∃ n, windowFlagsOf ((now, decide (1 ≤ maxReq))
        :: rlRun (some ⟨1, now⟩) rest) ws = passPattern 0 n := by
      by_cases hnws : now = ws
      · subst hnws
        rw [windowFlagsOf_cons_pos _ _ _ rfl]
        obtain ⟨n, hn⟩ := rlRun_flags_in_window rest 1 now hsort' hnowle
        rw [hn]
        refine ⟨n + 1, ?_⟩
        rw [passPattern_succ]
      · rw [windowFlagsOf_cons_neg _ _ _ (by simpa using hnws)]
        exact ih (some ⟨1, now⟩) ws hsort' (fun cb wb h => by
          simp only [Option.some.injEq, Bucket.mk.injEq] at h
          obtain ⟨h1, h2⟩ := h
          subst h2
          exact ⟨hnws, hnowle⟩)
    cases b with
    | none =>
        rw [rlRun_cons_none]
        exact hfresh
    | some bk =>
        rcases bk with ⟨cb, wb⟩
        obtain ⟨hwbne, hwble⟩ := hb cb wb rfl
        by_cases hreset : windowMs < now - wb
        · rw [rlRun_cons_reset cb wb now rest hreset]
          exact hfresh
        · rw [rlRun_cons_stay cb wb now rest hreset]
          rw [windowFlagsOf_cons_neg _ _ _ (by simpa using hwbne)]
          exact ih (some ⟨cb + 1, wb⟩) ws hsort' (fun cb' wb' h => by
            simp only [Option.some.injEq, Bucket.mk.injEq] at h
            obtain ⟨h1, h2⟩ := h
            subst h2
            exact ⟨hwbne, fun t ht => hwble t (List.mem_cons_of_mem _ ht)⟩)

theorem rlMapRun_filter_ip :
    ∀ (reqs : List (String × Int)) (m : List (String × Bucket)) (ip : String),
      ((rlMapRun m reqs).filter (fun r => r.1 == ip)).map (fun r => r.2)
        = rlRun (lookupEntry m ip)
            ((reqs.filter (fun r => r.1 == ip)).map Prod.snd) := by
  intro reqs
  induction reqs with
  | nil => intro m ip; rfl
  | cons hd rest ih =>
    intro m ip
    rcases hd with ⟨rip, now⟩
    by_cases hip : rip = ip
    · subst hip
      rw [rlMapRun, List.filter_cons, if_pos (by simp), List.filter_cons,
        if_pos (by simp), List.map_cons, List.map_cons, rlRun]
      rw [ih (setEntry m rip (rlStep (lookupEntry m rip) now).1) rip,
        lookupEntry_setEntry_self]
    · have hip' : (rip == ip) = false := by simp [hip]
      rw [rlMapRun, List.filter_cons, if_neg (by simp [hip']), List.filter_cons,
        if_neg (by simp [hip'])]
      rw [ih (setEntry m rip (rlStep (lookupEntry m rip) now).1) ip,
        lookupEntry_setEntry_ne _ _ _ _ (fun h => hip h.symm)]

theorem countP_range_le (c : Nat) :
    ∀ n, (List.range n).countP (fun j => decide (c + 1 + j ≤ maxReq)) ≤ maxReq := by
  intro n
  induction n with
  | zero => simp [maxReq]
  | succ n ih =>
    rw [List.range_succ, List.countP_append]
    by_cases h : c + 1 + n ≤ maxReq
    · have h1 : (List.range n).countP (fun j => decide (c + 1 + j ≤ maxReq)) ≤ n :=
        le_trans (List.countP_le_length _) (by simp)
      have h2 : List.countP (fun j => decide (c + 1 + j ≤ maxReq)) [n] ≤ 1 :=
        List.countP_le_length _
      omega
    · have h2 : List.countP (fun j => decide (c + 1 + j ≤ maxReq)) [n] = 0 := by
        simp [List.countP_cons, h]
      omega

theorem passPattern_count_le (c n : Nat) :
    (passPattern c n).countP (fun b => b) ≤ maxReq := by
  unfold passPattern
  rw [List.countP_map]
  exact countP_range_le c n

/-- C10: over any request trace with nondecreasing timestamps, for every
client IP and every window of that IP's bucket (identified by its
`windowStart` value `ws`), the pass/reject flags of the requests counted in
that window follow `passPattern 0`: the `j`-th such request passes exactly
when `j + 1 ≤ maxReq`, so at most `maxReq = 60` requests pass within the
window and every further request of that IP in the same window receives
HTTP 429 (is not passed through). -/
theorem rate_limiter_per_ip_window (reqs : List (String × Int))
    (hsorted : List.Sorted (· ≤ ·) (reqs.map Prod.snd)) (ip : String)
    (ws : Int) :
    (∃ n, ipWindowFlags reqs ip ws = passPattern 0 n) ∧
    (ipWindowFlags reqs ip ws).countP (fun b => b) ≤ maxReq := by
  have hred : ((rlMapRun [] reqs).filter (fun r => r.1 == ip)).map (fun r => r.2)
      = rlRun none ((reqs.filter (fun r => r.1 == ip)).map Prod.snd) :=
    rlMapRun_filter_ip reqs [] ip
  have hsub : List.Sorted (· ≤ ·)
      ((reqs.filter (fun r => r.1 == ip)).map Prod.snd) :=
    List.Pairwise.sublist (List.Sublist.map Prod.snd (List.filter_sublist reqs))
      hsorted
  obtain ⟨n, hn⟩ := rlRun_flags_general
    ((reqs.filter (fun r => r.1 == ip)).map Prod.snd) none ws hsub
    (fun cb wb h => nomatch h)
  constructor
  · refine ⟨n, ?_⟩
    unfold ipWindowFlags
    rw [hred]
    exact hn
  · unfold ipWindowFlags
    rw [hred, hn]
    exact passPattern_count_le 0 n

/-- Witness for C10 on a concrete three-request trace from two IPs. -/
theorem rate_limiter_per_ip_window_witness :
    (List.Sorted (· ≤ ·)
      (([("a", 0), ("a", 1), ("b", 2)] : List (String × Int)).map Prod.snd)) ∧
    ((∃ n, ipWindowFlags [("a", 0), ("a", 1), ("b", 2)] "a" 0
        = passPattern 0 n) ∧
    (ipWindowFlags [("a", 0), ("a", 1), ("b", 2)] "a" 0).countP (fun b => b)
      ≤ maxReq) :=
  ⟨by norm_num [List.sorted_cons],
    rate_limiter_per_ip_window [("a", 0), ("a", 1), ("b", 2)]
      (by norm_num [List.sorted_cons]) "a" 0⟩

end NetDev
